import Mathlib

/-!
Shallow embedding of the `checkdigit` crate (reference Luhn algorithm).

Strings are modelled as `List Char` (Rust `&str` viewed as its character
sequence; all the contracts below are expressed per character, which is what
`char_indices` / `chars()` give in the source).  `u8` digit values are
modelled as `Nat`: every value handled by the crate's decimal map lies in
`0..=9`, where `u8` and `Nat` arithmetic coincide (this is noted at each
operation).  A Rust panic is modelled as `Option.none` in the result type of
the function that can panic, and `Result<T, Error>` as `Except Error T`.
-/

/-- `Error` from `prelude.rs`.  The payloads are the `String`s carried by the
Rust variants, modelled as character lists.  The hidden `__Nonexhaustive`
placeholder variant is never constructed by the crate but is part of the
type. -/
inductive Error where
  | InvalidProtectedString : List Char → Error
  | UnknownCharInString : List Char → Error
  | Nonexhaustive : Error
deriving DecidableEq

instance {ε α : Type} [DecidableEq ε] [DecidableEq α] : DecidableEq (Except ε α)
  | .error e, .error f =>
    match decEq e f with
    | isTrue h => isTrue (h ▸ rfl)
    | isFalse h => isFalse fun hh => h (Except.error.inj hh)
  | .error _, .ok _ => isFalse fun hh => Except.noConfusion hh
  | .ok _, .error _ => isFalse fun hh => Except.noConfusion hh
  | .ok x, .ok y =>
    match decEq x y with
    | isTrue h => isTrue (h ▸ rfl)
    | isFalse h => isFalse fun hh => h (Except.ok.inj hh)

/-- Model of an `FnvHashMap` built by `collect()` from a pair iterator: the
pair list in insertion order.  Lookup returns the value of the LAST binding
of a key (a later `insert` of the same key overwrites an earlier one). -/
def hmLookup {α β : Type} [BEq α] : List (α × β) → α → Option β
  | [], _ => none
  | (k0, v0) :: rest, k =>
    match hmLookup rest k with
    | some w => some w
    | none => if k == k0 then some v0 else none

/-- `HashMap::len()` of the map built from the pair list: the number of
distinct keys. -/
def hmSize {α β : Type} [DecidableEq α] (m : List (α × β)) : Nat :=
  (m.map Prod.fst).dedup.length

/-- `CharMap<u8>` from `util/charmap.rs`: char-to-num and num-to-char maps. -/
structure CharMap where
  c_to_n : List (Char × Nat)
  n_to_c : List (Nat × Char)
deriving DecidableEq

/-- `CharMap::with_numset`.  Rust builds both maps by `collect()` over
`charset.chars().zip(numset)` resp. `numset.zip(charset.chars())`, then
asserts (1) `numset.len() == charset.chars().count()`, (2) the `c_to_n` map
has `charset_size` entries, (3) the `n_to_c` map has `charset_size` entries.
A failed assert is a panic, modelled as `none`. -/
def CharMap.with_numset (charset : List Char) (numset : List Nat) : Option CharMap :=
  let inst : CharMap := ⟨charset.zip numset, numset.zip charset⟩
  let charset_size := charset.length
  if numset.length = charset_size ∧ hmSize inst.c_to_n = charset_size ∧
      hmSize inst.n_to_c = charset_size then
    some inst
  else
    none

/-- `impl From<&str> for CharMap<u8>` (and the identical `u16`/`u32` impls):
`numset` is `0, 1, 2, ...` of the charset's character count.  (`from` is a
Lean keyword, hence the name.) -/
def CharMap.ofCharset (charset : List Char) : Option CharMap :=
  CharMap.with_numset charset (List.range charset.length)

/-- `CharMap::convert_chars`: strict conversion; `collect()` over a
`Result` iterator stops at the first unmapped character, returning
`Error::UnknownCharInString(c.to_string())` for it. -/
def CharMap.convert_chars (m : CharMap) : List Char → Except Error (List Nat)
  | [] => .ok []
  | c :: rest =>
    match hmLookup m.c_to_n c with
    | none => .error (.UnknownCharInString [c])
    | some v =>
      match m.convert_chars rest with
      | .error e => .error e
      | .ok vs => .ok (v :: vs)

/-- `CharMap::convert_chars_lossy`: `filter_map` over the lookup — unmapped
characters are skipped, the function never fails. -/
def CharMap.convert_chars_lossy (m : CharMap) (cs : List Char) : List Nat :=
  cs.filterMap (hmLookup m.c_to_n)

/-- `CharMap::convert_nums`: indexing `self.n_to_c[n]` panics on an unknown
value, modelled as `none`. -/
def CharMap.convert_nums (m : CharMap) (ns : List Nat) : Option (List Char) :=
  ns.mapM (hmLookup m.n_to_c)

/-- `util::split_protected_tail_n`.  The source runs
`protected.char_indices().nth_back(n - 1)`: `n - 1` is a `usize`
subtraction, so for `n = 0` it wraps around to `2^64 - 1`
(release-profile two's-complement semantics); `nth_back(k)` yields the
`(k+1)`-th character from the end — i.e. the character at position
`len - 1 - k` — iff the string has at least `k + 1` characters, and
`split_at` at its byte index splits the string into its first
`len - 1 - k` characters and the rest. -/
def split_protected_tail_n (text : List Char) (n : Nat) :
    Except Error (List Char × List Char) :=
  let k := (n + (2 ^ 64 - 1)) % 2 ^ 64
  if k < text.length then
    .ok (text.take (text.length - 1 - k), text.drop (text.length - 1 - k))
  else
    .error (.InvalidProtectedString text)

/-- `util::build_protected_apend`: plain concatenation, always `Ok`. -/
def build_protected_apend (unprotected check_chars : List Char) :
    Except Error (List Char) :=
  .ok (unprotected ++ check_chars)

/-- `is_even` from `ref_luhn.rs`: `n & 1 == 0`. -/
def is_even (n : Nat) : Bool := n &&& 1 == 0

/-- `luhn_double` from `ref_luhn.rs`: `n * 2 - if n < 5 { 0 } else { 9 }`.
The `u8` arithmetic never wraps for the digit values `0..=9` the crate
feeds it (for `n < 5` nothing is subtracted; for `5 ≤ n ≤ 9` we have
`9 ≤ n * 2 ≤ 18 < 256`), so `Nat` arithmetic agrees with the source. -/
def luhn_double (n : Nat) : Nat := n * 2 - if n < 5 then 0 else 9

/-- `CHARSET` from `ref_luhn.rs`. -/
def CHARSET : List Char := ['0', '1', '2', '3', '4', '5', '6', '7', '8', '9']

/-- `RefLuhn` struct. -/
structure RefLuhn where
  lossy : Bool
  charmap : CharMap
deriving DecidableEq

/-- The concrete value of `CharMap::from(CHARSET)`: since `CHARSET` has no
duplicate characters and `0, ..., 9` no duplicate values, the two hash maps
are exactly the zips (proved below in `ofCharset_CHARSET`). -/
def decimalMap : CharMap :=
  ⟨CHARSET.zip (List.range 10), (List.range 10).zip CHARSET⟩

/-- The value of `RefLuhn::default()`: `lossy = true` and the decimal map. -/
def refLuhnDefault : RefLuhn := ⟨true, decimalMap⟩

/-- The factory `ref_luhn()`, which returns `RefLuhn::default()`.  The
construction of the char map inside `default()` could in principle panic
(modelled by the `Option`); `ref_luhn_eq` below shows it does not. -/
def ref_luhn : Option RefLuhn :=
  (CharMap.ofCharset CHARSET).map fun cm => ⟨true, cm⟩

/-- `RefLuhn::compute`.  The digit string is decoded per the `lossy` flag,
the digits are traversed in reverse with `enumerate`, folded with the Luhn
step `(acc + if is_even(i) { luhn_double(n) } else { n }) % 10` (all `u8`
values stay below 28, so `Nat` agrees), and the check value `(10 - sum) % 10`
(no `u8` underflow: `sum ≤ 9`) is re-encoded by `convert_nums`, whose panic
is modelled by the outer `Option`. -/
def RefLuhn.compute (a : RefLuhn) (unprotected : List Char) :
    Option (Except Error (List Char)) :=
  match (if a.lossy then Except.ok (a.charmap.convert_chars_lossy unprotected)
         else a.charmap.convert_chars unprotected) with
  | .error e => some (.error e)
  | .ok ns =>
    let sum := ns.reverse.enum.foldl
      (fun acc p => (acc + if is_even p.1 then luhn_double p.2 else p.2) % 10) 0
    (a.charmap.convert_nums [(10 - sum) % 10]).map Except.ok

/-- `RefLuhn::generate`: `compute`, then append. -/
def RefLuhn.generate (a : RefLuhn) (unprotected : List Char) :
    Option (Except Error (List Char)) :=
  match a.compute unprotected with
  | none => none
  | some (.error e) => some (.error e)
  | some (.ok cc) => some (build_protected_apend unprotected cc)

/-- `RefLuhn::validate`: split off the 1-character tail, recompute on the
head, compare (`&str` equality is character-for-character). -/
def RefLuhn.validate (a : RefLuhn) (text : List Char) :
    Option (Except Error Bool) :=
  match split_protected_tail_n text 1 with
  | .error e => some (.error e)
  | .ok (unprotected, check_chars) =>
    match a.compute unprotected with
    | none => none
    | some (.error e) => some (.error e)
    | some (.ok cc) => some (.ok (check_chars == cc))

/-! Spec-side definitions, written from the specification's words, used to
state the refinement claims about `compute`. -/

/-- Modelled from the spec (step 3 of `compute`): "double the digit value
and, if the doubled value exceeds 9, subtract 9". -/
def spec_double (n : Nat) : Nat := if n < 5 then 2 * n else 2 * n - 9

/-- Modelled from the spec (steps 2-4 of `compute`): traverse the digits
from the rightmost toward the leftmost, numbering positions 0,1,2,... from
the right, double-transform the digits at even positions, and accumulate
the running sum modulo 10. -/
def spec_sum_aux : List Nat → Nat → Nat → Nat
  | [], _, acc => acc
  | n :: rest, pos, acc =>
    spec_sum_aux rest (pos + 1) ((acc + if pos % 2 = 0 then spec_double n else n) % 10)

/-- The spec's Luhn sum of a digit sequence (given in left-to-right order). -/
def spec_luhn_sum (ns : List Nat) : Nat := spec_sum_aux ns.reverse 0 0

/-- The check character `compute` produces for a payload under the default
(lossy, decimal) instance, per the spec: the decimal encoding (`'0'` has
code point 48) of `(10 - sum) % 10`. -/
def luhnCheckChar (s : List Char) : Char :=
  Char.ofNat (48 + (10 - spec_luhn_sum (decimalMap.convert_chars_lossy s)) % 10)

lemma luhn_double_eq (n : Nat) : luhn_double n = spec_double n := by
  unfold luhn_double spec_double
  split <;> omega

lemma foldl_enumFrom_eq (l : List Nat) : ∀ pos acc,
    (List.enumFrom pos l).foldl
      (fun acc p => (acc + if is_even p.1 then luhn_double p.2 else p.2) % 10) acc =
      spec_sum_aux l pos acc := by
  induction l with
  | nil => intro pos acc; rfl
  | cons n rest ih =>
    intro pos acc
    rw [show List.enumFrom pos (n :: rest) = (pos, n) :: List.enumFrom (pos + 1) rest from rfl,
      List.foldl_cons, ih]
    rw [show spec_sum_aux (n :: rest) pos acc =
      spec_sum_aux rest (pos + 1) ((acc + if pos % 2 = 0 then spec_double n else n) % 10) from rfl]
    congr 2
    by_cases h : pos % 2 = 0 <;> simp [is_even, Nat.and_one_is_mod, h, luhn_double_eq]

lemma luhn_fold_eq (ns : List Nat) :
    ns.reverse.enum.foldl
      (fun acc p => (acc + if is_even p.1 then luhn_double p.2 else p.2) % 10) 0 =
      spec_luhn_sum ns := by
  unfold spec_luhn_sum
  exact foldl_enumFrom_eq ns.reverse 0 0

lemma spec_sum_aux_lt (l : List Nat) : ∀ pos acc, acc < 10 → spec_sum_aux l pos acc < 10 := by
  induction l with
  | nil => intro pos acc h; exact h
  | cons n rest ih =>
    intro pos acc _
    exact ih (pos + 1) _ (Nat.mod_lt _ (by norm_num))

lemma spec_luhn_sum_lt (ns : List Nat) : spec_luhn_sum ns < 10 :=
  spec_sum_aux_lt ns.reverse 0 0 (by norm_num)

lemma convert_nums_decimal : ∀ d < 10,
    decimalMap.convert_nums [d] = some [Char.ofNat (48 + d)] := by
  decide

lemma compute_true_eq (s : List Char) :
    RefLuhn.compute ⟨true, decimalMap⟩ s =
      (decimalMap.convert_nums
        [(10 - spec_luhn_sum (decimalMap.convert_chars_lossy s)) % 10]).map Except.ok := by
  have h0 : RefLuhn.compute ⟨true, decimalMap⟩ s =
      (decimalMap.convert_nums
        [(10 - (decimalMap.convert_chars_lossy s).reverse.enum.foldl
            (fun acc p => (acc + if is_even p.1 then luhn_double p.2 else p.2) % 10) 0) %
          10]).map Except.ok := rfl
  rw [h0, luhn_fold_eq]

lemma compute_false_eq (s : List Char) :
    RefLuhn.compute ⟨false, decimalMap⟩ s =
      match decimalMap.convert_chars s with
      | .error e => some (.error e)
      | .ok ns =>
        (decimalMap.convert_nums [(10 - spec_luhn_sum ns) % 10]).map Except.ok := by
  have h0 : RefLuhn.compute ⟨false, decimalMap⟩ s =
      match decimalMap.convert_chars s with
      | .error e => some (.error e)
      | .ok ns =>
        (decimalMap.convert_nums
          [(10 - ns.reverse.enum.foldl
              (fun acc p => (acc + if is_even p.1 then luhn_double p.2 else p.2) % 10) 0) %
            10]).map Except.ok := rfl
  rw [h0]
  cases h : decimalMap.convert_chars s with
  | error e => rfl
  | ok ns =>
    dsimp only
    rw [luhn_fold_eq]

lemma compute_decimal_eq (lossy : Bool) (s : List Char) :
    RefLuhn.compute ⟨lossy, decimalMap⟩ s =
      match (if lossy then Except.ok (decimalMap.convert_chars_lossy s)
             else decimalMap.convert_chars s) with
      | .error e => some (.error e)
      | .ok ns => some (.ok [Char.ofNat (48 + (10 - spec_luhn_sum ns) % 10)]) := by
  cases lossy with
  | true =>
    rw [compute_true_eq, convert_nums_decimal _ (Nat.mod_lt _ (by norm_num))]
    rfl
  | false =>
    rw [compute_false_eq]
    cases h : decimalMap.convert_chars s with
    | error e => rfl
    | ok ns =>
      dsimp only
      rw [convert_nums_decimal _ (Nat.mod_lt _ (by norm_num))]
      rfl

lemma compute_default_eq (s : List Char) :
    RefLuhn.compute refLuhnDefault s = some (.ok [luhnCheckChar s]) := by
  rw [show refLuhnDefault = ⟨true, decimalMap⟩ from rfl, compute_true_eq,
    convert_nums_decimal _ (Nat.mod_lt _ (by norm_num))]
  rfl

lemma split_append_singleton (s : List Char) (c : Char) :
    split_protected_tail_n (s ++ [c]) 1 = .ok (s, [c]) := by
  have hk : (1 + (2 ^ 64 - 1)) % 2 ^ 64 = 0 := by norm_num
  simp only [split_protected_tail_n, hk]
  rw [if_pos (by simp)]
  have hl : (s ++ [c]).length - 1 - 0 = s.length := by simp
  rw [hl, List.take_left, List.drop_left]

lemma split_one_eq (p : List Char) (hp : p ≠ []) :
    split_protected_tail_n p 1 = .ok (p.dropLast, [p.getLast hp]) := by
  conv_lhs => rw [← List.dropLast_append_getLast hp]
  exact split_append_singleton _ _

lemma split_empty : split_protected_tail_n [] 1 = .error (.InvalidProtectedString []) := by
  decide

lemma list_beq_singleton (c d : Char) : ([c] == [d]) = (c == d) := by
  show (c == d && true) = (c == d)
  exact Bool.and_true _

lemma generate_default_eq (s : List Char) :
    RefLuhn.generate refLuhnDefault s = some (.ok (s ++ [luhnCheckChar s])) := by
  unfold RefLuhn.generate
  rw [compute_default_eq]
  rfl

lemma validate_append_eq (s : List Char) (c : Char) :
    RefLuhn.validate refLuhnDefault (s ++ [c]) = some (.ok (c == luhnCheckChar s)) := by
  have h0 : RefLuhn.validate refLuhnDefault (s ++ [c]) =
      match split_protected_tail_n (s ++ [c]) 1 with
      | .error e => some (.error e)
      | .ok (unprotected, check_chars) =>
        match RefLuhn.compute refLuhnDefault unprotected with
        | none => none
        | some (.error e) => some (.error e)
        | some (.ok cc) => some (.ok (check_chars == cc)) := rfl
  rw [h0]
  simp only [split_append_singleton, compute_default_eq, list_beq_singleton]

lemma hmLookup_some_mem {α β : Type} [BEq α] [LawfulBEq α] :
    ∀ {m : List (α × β)} {k : α} {v : β}, hmLookup m k = some v → (k, v) ∈ m := by
  intro m
  induction m with
  | nil => intro k v h; simp [hmLookup] at h
  | cons p rest ih =>
    intro k v h
    obtain ⟨k0, v0⟩ := p
    rw [hmLookup] at h
    cases hr : hmLookup rest k with
    | some w =>
      rw [hr] at h
      cases h
      exact List.mem_cons_of_mem _ (ih hr)
    | none =>
      rw [hr] at h
      by_cases hk : (k == k0) = true
      · rw [if_pos hk] at h
        cases h
        have hkk : k = k0 := eq_of_beq hk
        subst hkk
        exact List.mem_cons_self _ _
      · rw [if_neg hk] at h
        cases h

lemma hmLookup_none_iff {α β : Type} [BEq α] [LawfulBEq α] :
    ∀ (m : List (α × β)) (k : α), hmLookup m k = none ↔ k ∉ m.map Prod.fst := by
  intro m
  induction m with
  | nil => intro k; simp [hmLookup]
  | cons p rest ih =>
    intro k
    obtain ⟨k0, v0⟩ := p
    rw [hmLookup]
    cases hr : hmLookup rest k with
    | some w =>
      have hmem : k ∈ rest.map Prod.fst :=
        List.mem_map_of_mem Prod.fst (hmLookup_some_mem hr)
      simp [hmem]
    | none =>
      have hknot : k ∉ rest.map Prod.fst := (ih k).mp hr
      by_cases hk : k = k0 <;> simp [hk, hknot]

lemma hmLookup_nodup_iff {α β : Type} [BEq α] [LawfulBEq α] :
    ∀ (m : List (α × β)), (m.map Prod.fst).Nodup →
      ∀ (k : α) (v : β), (hmLookup m k = some v ↔ (k, v) ∈ m) := by
  intro m
  induction m with
  | nil => intro _ k v; simp [hmLookup]
  | cons p rest ih =>
    intro hnd k v
    obtain ⟨k0, v0⟩ := p
    have hnd' : (rest.map Prod.fst).Nodup := (List.nodup_cons.mp hnd).2
    have hk0 : k0 ∉ rest.map Prod.fst := (List.nodup_cons.mp hnd).1
    rw [hmLookup]
    cases hr : hmLookup rest k with
    | some w =>
      have hmem := hmLookup_some_mem hr
      constructor
      · intro h
        cases h
        exact List.mem_cons_of_mem _ hmem
      · intro h
        rcases List.mem_cons.mp h with heq | hm
        · cases heq
          exact absurd (List.mem_map_of_mem Prod.fst hmem) hk0
        · have := (ih hnd' k v).mpr hm
          rw [hr] at this
          exact this
    | none =>
      have hknot : k ∉ rest.map Prod.fst := (hmLookup_none_iff rest k).mp hr
      by_cases hk : k = k0
      · subst hk
        rw [if_pos (beq_self_eq_true k)]
        constructor
        · intro h
          cases h
          exact List.mem_cons_self _ _
        · intro h
          rcases List.mem_cons.mp h with heq | hm
          · rw [Prod.mk.injEq] at heq
            rw [heq.2]
          · exact absurd (List.mem_map_of_mem Prod.fst hm) hknot
      · rw [if_neg (by simp [hk])]
        constructor
        · intro h
          cases h
        · intro h
          rcases List.mem_cons.mp h with heq | hm
          · rw [Prod.mk.injEq] at heq
            exact absurd heq.1 hk
          · exact absurd (List.mem_map_of_mem Prod.fst hm) hknot

lemma mem_zip_swap {α β : Type} :
    ∀ (l1 : List α) (l2 : List β) (a : α) (b : β),
      ((a, b) ∈ l1.zip l2 ↔ (b, a) ∈ l2.zip l1) := by
  intro l1
  induction l1 with
  | nil => intro l2 a b; cases l2 <;> simp
  | cons x xs ih =>
    intro l2 a b
    cases l2 with
    | nil => simp
    | cons y ys =>
      simp only [List.zip_cons_cons, List.mem_cons, ih ys, Prod.mk.injEq]
      tauto

lemma dedup_length_eq_iff {α : Type} [DecidableEq α] (l : List α) :
    l.dedup.length = l.length ↔ l.Nodup := by
  constructor
  · intro h
    have heq := List.Sublist.eq_of_length (List.dedup_sublist l) h
    rw [← heq]
    exact List.nodup_dedup l
  · intro h
    rw [List.dedup_eq_self.mpr h]

lemma hmSize_zip {α β : Type} [DecidableEq α] (l1 : List α) (l2 : List β)
    (h : l1.length ≤ l2.length) : hmSize (l1.zip l2) = l1.dedup.length := by
  unfold hmSize
  rw [List.map_fst_zip l1 l2 h]

lemma with_numset_none_iff (charset : List Char) (numset : List Nat) :
    CharMap.with_numset charset numset = none ↔
      (numset.length ≠ charset.length ∨ ¬ charset.Nodup ∨ ¬ numset.Nodup) := by
  unfold CharMap.with_numset
  by_cases hA : numset.length = charset.length
  · have h1 : hmSize (charset.zip numset) = charset.dedup.length :=
      hmSize_zip _ _ (by omega)
    have h2 : hmSize (numset.zip charset) = numset.dedup.length :=
      hmSize_zip _ _ (by omega)
    have hcond : (numset.length = charset.length ∧
        hmSize (charset.zip numset) = charset.length ∧
        hmSize (numset.zip charset) = charset.length) ↔
        (charset.Nodup ∧ numset.Nodup) := by
      rw [h1, h2]
      constructor
      · rintro ⟨-, hb, hc⟩
        exact ⟨(dedup_length_eq_iff charset).mp hb,
          (dedup_length_eq_iff numset).mp (by rw [hc, hA])⟩
      · rintro ⟨hb, hc⟩
        refine ⟨hA, ?_, ?_⟩
        · rw [List.dedup_eq_self.mpr hb]
        · rw [List.dedup_eq_self.mpr hc, hA]
    by_cases hBC : charset.Nodup ∧ numset.Nodup
    · rw [if_pos (hcond.mpr hBC)]
      simp [hA, hBC.1, hBC.2]
    · rw [if_neg (fun hc => hBC (hcond.mp hc))]
      constructor
      · intro _
        by_cases hB : charset.Nodup
        · exact Or.inr (Or.inr (fun hC => hBC ⟨hB, hC⟩))
        · exact Or.inr (Or.inl hB)
      · intro _
        rfl
  · rw [if_neg (fun hc => hA hc.1)]
    simp [hA]

lemma with_numset_some_inv {charset : List Char} {numset : List Nat} {cm : CharMap}
    (h : CharMap.with_numset charset numset = some cm) :
    cm = ⟨charset.zip numset, numset.zip charset⟩ ∧
      numset.length = charset.length ∧ charset.Nodup ∧ numset.Nodup := by
  unfold CharMap.with_numset at h
  by_cases hc : (numset.length = charset.length ∧
      hmSize (charset.zip numset) = charset.length ∧
      hmSize (numset.zip charset) = charset.length)
  · rw [if_pos hc] at h
    obtain ⟨hA, hB, hC⟩ := hc
    have h1 : hmSize (charset.zip numset) = charset.dedup.length :=
      hmSize_zip _ _ (by omega)
    have h2 : hmSize (numset.zip charset) = numset.dedup.length :=
      hmSize_zip _ _ (by omega)
    refine ⟨by cases h; rfl, hA, ?_, ?_⟩
    · exact (dedup_length_eq_iff charset).mp (by rw [← h1, hB])
    · exact (dedup_length_eq_iff numset).mp (by rw [← h2, hC, hA])
  · rw [if_neg hc] at h
    cases h

lemma with_numset_bij {charset : List Char} {numset : List Nat} {cm : CharMap}
    (h : CharMap.with_numset charset numset = some cm) (c : Char) (v : Nat) :
    (hmLookup cm.c_to_n c = some v ↔ hmLookup cm.n_to_c v = some c) := by
  obtain ⟨hcm, hA, hcs, hns⟩ := with_numset_some_inv h
  subst hcm
  have hkey1 : ((charset.zip numset).map Prod.fst).Nodup := by
    rw [List.map_fst_zip _ _ (by omega)]
    exact hcs
  have hkey2 : ((numset.zip charset).map Prod.fst).Nodup := by
    rw [List.map_fst_zip _ _ (by omega)]
    exact hns
  rw [hmLookup_nodup_iff _ hkey1 c v, hmLookup_nodup_iff _ hkey2 v c]
  exact mem_zip_swap charset numset c v

lemma convert_chars_eq (m : CharMap) :
    ∀ cs : List Char, m.convert_chars cs =
      match cs.find? (fun c => (hmLookup m.c_to_n c).isNone) with
      | some c => .error (.UnknownCharInString [c])
      | none => .ok (m.convert_chars_lossy cs) := by
  intro cs
  induction cs with
  | nil => rfl
  | cons c rest ih =>
    rw [CharMap.convert_chars]
    cases hl : hmLookup m.c_to_n c with
    | none =>
      rw [List.find?]
      simp [hl]
    | some v =>
      rw [ih, List.find?]
      simp only [hl, Option.isNone_some]
      cases hf : rest.find? (fun c => (hmLookup m.c_to_n c).isNone) with
      | some cbad => rfl
      | none =>
        dsimp only
        rw [show m.convert_chars_lossy (c :: rest) = v :: m.convert_chars_lossy rest from by
          simp [CharMap.convert_chars_lossy, List.filterMap_cons, hl]]

lemma ref_luhn_eq : ref_luhn = some refLuhnDefault := by decide

/-! Claim theorems. -/

/-- C1: for every unprotected string, `compute` decodes it into a digit
sequence (strict or lossy per the configured policy), numbers positions
0,1,2,... from the rightmost digit, replaces each digit at an even position
by its Luhn double (2n if n < 5, else 2n - 9), accumulates the sum modulo
10, and returns Ok of the one-character decimal encoding of
(10 - sum) % 10. -/
theorem compute_follows_luhn_spec (lossy : Bool) (s : List Char) :
    RefLuhn.compute ⟨lossy, decimalMap⟩ s =
      match (if lossy then Except.ok (decimalMap.convert_chars_lossy s)
             else decimalMap.convert_chars s) with
      | .error e => some (.error e)
      | .ok ns => some (.ok [Char.ofNat (48 + (10 - spec_luhn_sum ns) % 10)]) :=
  compute_decimal_eq lossy s

/-- C2: for every unprotected string over the charset "0123456789",
`validate (generate s)` is `Ok true` for the default Luhn instance. -/
theorem validate_generate_roundtrip (s : List Char) (h : ∀ c ∈ s, c ∈ CHARSET) :
    ∃ p, RefLuhn.generate refLuhnDefault s = some (.ok p) ∧
      RefLuhn.validate refLuhnDefault p = some (.ok true) := by
  refine ⟨s ++ [luhnCheckChar s], generate_default_eq s, ?_⟩
  rw [validate_append_eq, beq_self_eq_true]

/-- C2 witness at the spec's fixture payload "7992739871". -/
theorem validate_generate_roundtrip_witness :
    ∃ p, RefLuhn.generate refLuhnDefault
        ['7', '9', '9', '2', '7', '3', '9', '8', '7', '1'] = some (.ok p) ∧
      RefLuhn.validate refLuhnDefault p = some (.ok true) :=
  validate_generate_roundtrip _ (by decide)

/-- C3: replacing the last character of a valid protected string by any
other decimal digit makes `validate` return `Ok false`. -/
theorem last_digit_substitution_detected (p : List Char) (hp : p ≠ [])
    (hv : RefLuhn.validate refLuhnDefault p = some (.ok true))
    (hlast : p.getLast hp ∈ CHARSET) (d : Char) (hd : d ∈ CHARSET)
    (hne : d ≠ p.getLast hp) :
    RefLuhn.validate refLuhnDefault (p.dropLast ++ [d]) = some (.ok false) := by
  have hsplit := List.dropLast_append_getLast hp
  rw [← hsplit, validate_append_eq] at hv
  have hc : p.getLast hp = luhnCheckChar p.dropLast :=
    eq_of_beq (Except.ok.inj (Option.some.inj hv))
  rw [validate_append_eq]
  have hf : (d == luhnCheckChar p.dropLast) = false := by
    rw [← hc]
    exact beq_eq_false_iff_ne.mpr hne
  rw [hf]

/-- C3 witness: the valid protected string "79927398713" with its last digit
replaced by '0' fails validation. -/
theorem last_digit_substitution_witness :
    RefLuhn.validate refLuhnDefault
        ['7', '9', '9', '2', '7', '3', '9', '8', '7', '1', '0'] =
      some (.ok false) :=
  last_digit_substitution_detected
    ['7', '9', '9', '2', '7', '3', '9', '8', '7', '1', '3'] (by decide)
    (by decide) (by decide) '0' (by decide) (by decide)

/-- C4 counterexample: at `n = 0` the claim demands
`Ok((text, ""))` for any text, but the `usize` subtraction `n - 1` wraps and
the function returns `Err(InvalidProtectedString)` although the text does
not have fewer than 0 characters. -/
theorem split_tail_zero_counterexample :
    split_protected_tail_n ['a'] 0 = .error (.InvalidProtectedString ['a']) ∧
      ¬ (List.length ['a'] < 0) :=
  ⟨by decide, by decide⟩

/-- C4 (amended to n ≥ 1, n a usize value): `split_protected_tail_n` returns
the last n characters as the tail and the remaining prefix as the head, with
head ++ tail = text, and errors with `InvalidProtectedString text` exactly
when text has fewer than n characters. -/
theorem split_tail_spec (text : List Char) (n : Nat) (h1 : 1 ≤ n)
    (h2 : n < 2 ^ 64) :
    (n ≤ text.length →
      split_protected_tail_n text n =
        .ok (text.take (text.length - n), text.drop (text.length - n)) ∧
      text.take (text.length - n) ++ text.drop (text.length - n) = text ∧
      (text.drop (text.length - n)).length = n) ∧
    (text.length < n →
      split_protected_tail_n text n = .error (.InvalidProtectedString text)) := by
  have h64 : (2 : Nat) ^ 64 = 18446744073709551616 := by norm_num
  have hk : (n + (2 ^ 64 - 1)) % 2 ^ 64 = n - 1 := by
    rw [h64] at h2 ⊢
    omega
  constructor
  · intro hle
    refine ⟨?_, List.take_append_drop _ _, ?_⟩
    · simp only [split_protected_tail_n, hk]
      rw [if_pos (by omega)]
      have heq : text.length - 1 - (n - 1) = text.length - n := by omega
      rw [heq]
    · rw [List.length_drop]
      omega
  · intro hlt
    simp only [split_protected_tail_n, hk]
    rw [if_neg (by omega)]

/-- C4 witness at the repository's own test case: splitting "helloworld" at
the 5th-last character. -/
theorem split_tail_spec_witness :
    split_protected_tail_n ['h', 'e', 'l', 'l', 'o', 'w', 'o', 'r', 'l', 'd'] 5 =
      .ok (['h', 'e', 'l', 'l', 'o'], ['w', 'o', 'r', 'l', 'd']) :=
  ((split_tail_spec ['h', 'e', 'l', 'l', 'o', 'w', 'o', 'r', 'l', 'd'] 5
    (by decide) (by norm_num)).1 (by decide)).1

/-- C5: boundary behaviour of the default instance: `compute ""` is
`Ok "0"`, `validate ""` is `Err(InvalidProtectedString(""))`, and
`validate "5"` is `Ok false`. -/
theorem boundary_behaviour :
    RefLuhn.compute refLuhnDefault [] = some (.ok ['0']) ∧
      RefLuhn.validate refLuhnDefault [] =
        some (.error (.InvalidProtectedString [])) ∧
      RefLuhn.validate refLuhnDefault ['5'] = some (.ok false) :=
  ⟨by decide, by decide, by decide⟩

/-- C6 counterexample: `compute "4417123456789112"` does not return
`Ok "3"`. -/
theorem fixture_4417_counterexample :
    ¬ (RefLuhn.compute refLuhnDefault
        ['4', '4', '1', '7', '1', '2', '3', '4', '5', '6', '7', '8', '9', '1', '1', '2'] =
          some (.ok ['3'])) := by
  decide

/-- C6 (amended): `compute "4417123456789112"` returns `Ok "8"` for the
default Luhn instance. -/
theorem fixture_4417_value :
    RefLuhn.compute refLuhnDefault
        ['4', '4', '1', '7', '1', '2', '3', '4', '5', '6', '7', '8', '9', '1', '1', '2'] =
      some (.ok ['8']) := by
  decide

/-- C7: `with_numset` (and the sequential constructors built on it) panics
exactly when the charset and numset differ in length or either sequence has
a duplicate; a sequential map from "0123405" panics (duplicate '0'); and a
successfully constructed map is a bijection between characters and values. -/
theorem charmap_construction_correct (charset : List Char) (numset : List Nat) :
    (CharMap.with_numset charset numset = none ↔
      (numset.length ≠ charset.length ∨ ¬ charset.Nodup ∨ ¬ numset.Nodup)) ∧
    (∀ cm, CharMap.with_numset charset numset = some cm →
      ∀ (c : Char) (v : Nat),
        (hmLookup cm.c_to_n c = some v ↔ hmLookup cm.n_to_c v = some c)) ∧
    CharMap.ofCharset ['0', '1', '2', '3', '4', '0', '5'] = none := by
  refine ⟨with_numset_none_iff charset numset, ?_, by decide⟩
  intro cm h c v
  exact with_numset_bij h c v

/-- C7 witness: the map built from "AB" / [5, 6] is a bijection at 'A'. -/
theorem charmap_construction_witness :
    (hmLookup (⟨[('A', 5), ('B', 6)], [(5, 'A'), (6, 'B')]⟩ : CharMap).c_to_n 'A' =
        some 5 ↔
      hmLookup (⟨[('A', 5), ('B', 6)], [(5, 'A'), (6, 'B')]⟩ : CharMap).n_to_c 5 =
        some 'A') :=
  (charmap_construction_correct ['A', 'B'] [5, 6]).2.1
    ⟨[('A', 5), ('B', 6)], [(5, 'A'), (6, 'B')]⟩ (by decide) 'A' 5

/-- C8: for every map and input, strict decoding errs with
`UnknownCharInString` on the first unmapped character if one exists, and
otherwise returns Ok of exactly the (never-failing) lossy decoding, which
skips unmapped characters. -/
theorem strict_lossy_decode_spec (m : CharMap) (cs : List Char) :
    m.convert_chars cs =
      (match cs.find? (fun c => (hmLookup m.c_to_n c).isNone) with
       | some c => .error (.UnknownCharInString [c])
       | none => .ok (m.convert_chars_lossy cs)) :=
  convert_chars_eq m cs

/-- C9: none of `compute`, `generate`, `validate` of the default Luhn
instance panics on any input: each always returns a `Result` value (the
re-encoding via the panicking `convert_nums` lookup always succeeds because
`(10 - sum) % 10` is a key of the decimal map). -/
theorem public_operations_never_panic (s : List Char) :
    (RefLuhn.compute refLuhnDefault s).isSome ∧
      (RefLuhn.generate refLuhnDefault s).isSome ∧
      (RefLuhn.validate refLuhnDefault s).isSome := by
  refine ⟨by rw [compute_default_eq]; rfl, by rw [generate_default_eq]; rfl, ?_⟩
  by_cases hs : s = []
  · subst hs
    decide
  · have h := validate_append_eq s.dropLast (s.getLast hs)
    rw [List.dropLast_append_getLast hs] at h
    rw [h]
    rfl

/-- C10: the factory `ref_luhn()` yields the default (lossy) instance;
`compute` and `generate` return Ok for every input, and `validate` errors
exactly on the empty string, with `InvalidProtectedString("")` the only
reachable error value. -/
theorem default_instance_error_surface (s : List Char) :
    ref_luhn = some refLuhnDefault ∧
      refLuhnDefault.lossy = true ∧
      (∃ cc, RefLuhn.compute refLuhnDefault s = some (.ok cc)) ∧
      (∃ p, RefLuhn.generate refLuhnDefault s = some (.ok p)) ∧
      (s = [] → RefLuhn.validate refLuhnDefault s =
        some (.error (.InvalidProtectedString []))) ∧
      (s ≠ [] → ∃ b, RefLuhn.validate refLuhnDefault s = some (.ok b)) := by
  refine ⟨ref_luhn_eq, rfl, ⟨_, compute_default_eq s⟩, ⟨_, generate_default_eq s⟩,
    ?_, ?_⟩
  · intro hs
    subst hs
    decide
  · intro hs
    have h := validate_append_eq s.dropLast (s.getLast hs)
    rw [List.dropLast_append_getLast hs] at h
    exact ⟨_, h⟩

/-- C10 witness: the two `validate` branches at "" and "5". -/
theorem default_instance_error_surface_witness :
    RefLuhn.validate refLuhnDefault [] =
        some (.error (.InvalidProtectedString [])) ∧
      ∃ b, RefLuhn.validate refLuhnDefault ['5'] = some (.ok b) :=
  ⟨(default_instance_error_surface []).2.2.2.2.1 rfl,
    (default_instance_error_surface ['5']).2.2.2.2.2 (by decide)⟩
